import Mathlib

/-!
Shallow embedding of the `aoe2-match-history` repository (files
`aoe2_match_history.py` and `app.py`) and proofs about the claims of its
specification.

Conventions of the embedding:
* Python dictionaries holding match data become Lean structures whose fields
  are `Option`-typed: `none` models an absent key (or a JSON `null`, where the
  code treats the two alike); helper functions model Python truthiness.
* Python `datetime` values become the `DateTime` structure below.  Ordering and
  arithmetic go through the injective radix encoding `DateTime.key` (13 months
  of 32 days); within one day it agrees exactly with real calendar arithmetic,
  which is all the analysed code paths exercise.  Python compares datetimes
  lexicographically on components, which on calendar-valid values coincides
  with comparing `key`.
* `json.dump` is deterministic for a fixed value, so "byte-for-byte identical
  file contents" is modelled as equality of the stored lists of `Match` values.
* Python's `sorted` is a stable sort; it is modelled by Mathlib's
  `List.insertionSort`, which is also stable.
-/

namespace Aoe2

/-! ### Datetimes (`datetime` objects of the Python code) -/

structure DateTime where
  year : Nat
  month : Nat
  day : Nat
  hour : Nat
  minute : Nat
  second : Nat
deriving DecidableEq

/-- Injective radix encoding of a `DateTime` as a number of seconds; monotone
(with respect to Python's lexicographic datetime order) on calendar-valid
values. -/
def DateTime.key (d : DateTime) : Nat :=
  ((((d.year * 13 + d.month) * 32 + d.day) * 24 + d.hour) * 60 + d.minute) * 60 + d.second

/-- Inverse of `DateTime.key`. -/
def DateTime.ofKey (n : Nat) : DateTime :=
  ⟨n / 60 / 60 / 24 / 32 / 13, n / 60 / 60 / 24 / 32 % 13,
   n / 60 / 60 / 24 % 32, n / 60 / 60 % 24, n / 60 % 60, n % 60⟩

/-- `datetime.min` of Python (year 1, January 1st, midnight). -/
def dtMin : DateTime := ⟨1, 1, 1, 0, 0, 0⟩

/-- `datetime.fromtimestamp`: epoch-seconds to calendar conversion, modelled
through the simplified radix calendar (injective and monotone for the
non-negative timestamps the native API produces; no claim depends on the
concrete calendar components). -/
def DateTime.fromTimestamp (ts : Int) : DateTime := DateTime.ofKey ts.toNat

/-! ### Shared parsing helpers of `aoe2_match_history.py` -/

/-- Digits of a decimal string as a number (`int(...)` on an all-digit
string). -/
def natOfDigits (cs : List Char) : Nat :=
  cs.foldl (fun acc c => acc * 10 + (c.toNat - '0'.toNat)) 0

/-- Char-level split on a separator character (all the string surgery of the
embedding is done with structural recursion over `List Char`, so that proofs
can evaluate it; the library string functions use well-founded recursion). -/
def splitCharGo (sep : Char) : List Char → List Char → List (List Char)
  | acc, [] => [acc.reverse]
  | acc, c :: rest =>
    if c = sep then acc.reverse :: splitCharGo sep [] rest
    else splitCharGo sep (c :: acc) rest

def splitOnChar (sep : Char) (cs : List Char) : List (List Char) :=
  splitCharGo sep [] cs

/-- Char-level split on whitespace runs. -/
def splitWsGo : List Char → List Char → List (List Char)
  | acc, [] => [acc.reverse]
  | acc, c :: rest =>
    if c.isWhitespace then acc.reverse :: splitWsGo [] rest
    else splitWsGo (c :: acc) rest

/-- Rejoin word chunks with single spaces. -/
def joinSpace : List (List Char) → List Char
  | [] => []
  | [w] => w
  | w :: ws => w ++ ' ' :: joinSpace ws

/-- `str.replace(pat, rep)`: leftmost non-overlapping occurrences, with a
fuel argument (one unit per examined character) to keep the recursion
structural. -/
def replaceChars (pat rep : List Char) : Nat → List Char → List Char
  | _, [] => []
  | 0, cs => cs
  | fuel + 1, c :: rest =>
    if pat.isPrefixOf (c :: rest) then
      rep ++ replaceChars pat rep fuel ((c :: rest).drop pat.length)
    else
      c :: replaceChars pat rep fuel rest

def pyReplace (s pat rep : String) : String :=
  String.mk (replaceChars pat.data rep.data s.data.length s.data)

/-- `str.strip()`. -/
def trimChars (cs : List Char) : List Char :=
  ((cs.dropWhile Char.isWhitespace).reverse.dropWhile Char.isWhitespace).reverse

def pyStrip (s : String) : String := String.mk (trimChars s.data)

/-- `str.lower()` over the ASCII letters. -/
def pyLower (s : String) : String := String.mk (s.data.map Char.toLower)

/-- A fixed-width all-digit field, as `strptime`/`fromisoformat` require. -/
def parseFixedNat (cs : List Char) (width : Nat) : Option Nat :=
  if cs.length = width ∧ cs.all Char.isDigit then some (natOfDigits cs) else none

/-- The `YYYY-MM-DD` date part accepted by `datetime.fromisoformat`, with the
range validation Python performs (days in month simplified to `1..31`). -/
def parseIsoDate (cs : List Char) : Option (Nat × Nat × Nat) :=
  match splitOnChar '-' cs with
  | [y, mo, d] =>
    match parseFixedNat y 4, parseFixedNat mo 2, parseFixedNat d 2 with
    | some yn, some mon, some dn =>
      if 1 ≤ mon ∧ mon ≤ 12 ∧ 1 ≤ dn ∧ dn ≤ 31 then some (yn, mon, dn) else none
    | _, _, _ => none
  | _ => none

/-- The `HH:MM[:SS]` time part accepted by `datetime.fromisoformat`. -/
def parseIsoTime (cs : List Char) : Option (Nat × Nat × Nat) :=
  match splitOnChar ':' cs with
  | [h, mi] =>
    match parseFixedNat h 2, parseFixedNat mi 2 with
    | some hn, some mn => if hn ≤ 23 ∧ mn ≤ 59 then some (hn, mn, 0) else none
    | _, _ => none
  | [h, mi, sec] =>
    match parseFixedNat h 2, parseFixedNat mi 2, parseFixedNat sec 2 with
    | some hn, some mn, some sn =>
      if hn ≤ 23 ∧ mn ≤ 59 ∧ sn ≤ 59 then some (hn, mn, sn) else none
    | _, _, _ => none
  | _ => none

/-- `datetime.fromisoformat` on the `YYYY-MM-DD[ HH:MM[:SS]]` layouts the
pipeline itself produces and re-reads. -/
def parseIso (cs : List Char) : Option DateTime :=
  match splitOnChar ' ' cs with
  | [d] => (parseIsoDate d).map (fun p => ⟨p.1, p.2.1, p.2.2, 0, 0, 0⟩)
  | [d, t] =>
    match parseIsoDate d, parseIsoTime t with
    | some p, some q => some ⟨p.1, p.2.1, p.2.2, q.1, q.2.1, q.2.2⟩
    | _, _ => none
  | _ => none

/-- `re.sub(r"\s+", " ", s).strip()`: collapse whitespace runs and strip. -/
def collapseWhitespace (cs : List Char) : List Char :=
  joinSpace ((splitWsGo [] cs).filter (· ≠ []))

/-- `parse_datetime_value`.  The `a.m./p.m.` and narrow-no-break-space
replacements and the whitespace collapse are modelled; of the parse attempts,
the leading `fromisoformat` branch is modelled faithfully while the `strptime`
fallback formats (locale-formatted strings scraped from HTML pages, never
produced by the pipeline itself) are modelled as failing, so such inputs map to
`none`. -/
def parse_datetime_value (value : Option String) : Option DateTime :=
  match value with
  | none => none
  | some s =>
    if s = "" then none
    else
      parseIso (collapseWhitespace
        (((pyReplace (pyReplace s "a.m." "AM") "p.m." "PM")).data.map
          (fun c => if c = '\u202f' then ' ' else c)))

/-- `%Y` field: zero-padded to four digits. -/
def pad4 (n : Nat) : String :=
  if n < 10 then "000" ++ toString n
  else if n < 100 then "00" ++ toString n
  else if n < 1000 then "0" ++ toString n
  else toString n

/-- Two-digit zero-padded field. -/
def pad2 (n : Nat) : String :=
  if n < 10 then "0" ++ toString n else toString n

/-- `format_dt`: truncate to minute precision and render `%Y-%m-%d %H:%M`
(`datetime` objects are always truthy, so only `None` maps to `None`). -/
def format_dt (d : Option DateTime) : Option String :=
  d.map fun dt =>
    pad4 dt.year ++ "-" ++ pad2 dt.month ++ "-" ++ pad2 dt.day ++ " " ++
      pad2 dt.hour ++ ":" ++ pad2 dt.minute

/-- `duration_to_seconds`: `re.match` of `(?:(\d+)h\s*)?(\d+)m\s*(\d+)s`
against the stripped string (anchored at the start only, trailing garbage
ignored, exactly as `re.match` behaves). -/
def parseMinSec (cs : List Char) : Option (Nat × Nat) :=
  let m := cs.takeWhile Char.isDigit
  let r1 := cs.dropWhile Char.isDigit
  if m = [] then none
  else
    match r1 with
    | 'm' :: r2 =>
      let r3 := r2.dropWhile Char.isWhitespace
      let s := r3.takeWhile Char.isDigit
      let r4 := r3.dropWhile Char.isDigit
      if s = [] then none
      else
        match r4 with
        | 's' :: _ => some (natOfDigits m, natOfDigits s)
        | _ => none
    | _ => none

def duration_to_seconds (duration_str : Option String) : Option Nat :=
  match duration_str with
  | none => none
  | some str =>
    if str = "" then none
    else
      let cs := trimChars str.data
      let d1 := cs.takeWhile Char.isDigit
      let r1 := cs.dropWhile Char.isDigit
      if d1 = [] then none
      else
        match r1 with
        | 'h' :: r2 =>
          ((parseMinSec (r2.dropWhile Char.isWhitespace)).map fun p =>
            natOfDigits d1 * 3600 + p.1 * 60 + p.2)
        | _ =>
          (parseMinSec cs).map fun p => p.1 * 60 + p.2

/-- `GAME_SPEED_FACTOR = 1.7`: the float literal modelled as the exact
rational. -/
def GAME_SPEED_FACTOR : ℚ := 17 / 10

/-- `duration_to_real_seconds`: game seconds divided by the speed factor. -/
def duration_to_real_seconds (duration_str : Option String) : Option ℚ :=
  (duration_to_seconds duration_str).map fun s => (s : ℚ) / GAME_SPEED_FACTOR

/-- `end_dt - dt.timedelta(seconds=real_dur)`, through the radix encoding;
exact to the second (`format_dt` then discards the seconds anyway). -/
def dtSubSeconds (d : DateTime) (q : ℚ) : DateTime :=
  DateTime.ofKey (((d.key : ℚ) - q).floor.toNat)

/-! ### Map-name cleanup -/

/-- `re.sub(r"\.rms\d*$", "", name, flags=re.IGNORECASE)`: strip one trailing
`.rms`/`.rms<digits>` extension. -/
def stripRmsSuffix (s : String) : String :=
  let rev := s.data.reverse
  let rest := rev.dropWhile Char.isDigit
  match rest with
  | c1 :: c2 :: c3 :: c4 :: rest' =>
    if c1.toLower = 's' ∧ c2.toLower = 'm' ∧ c3.toLower = 'r' ∧ c4 = '.' then
      String.mk rest'.reverse
    else s
  | _ => s

/-- `str.title()` over the ASCII letters: uppercase a letter opening a run of
letters, lowercase the rest. -/
def titleCaseGo : Bool → List Char → List Char
  | _, [] => []
  | prevCased, c :: rest =>
    let cased := c.isAlpha
    (if cased then (if prevCased then c.toLower else c.toUpper) else c) ::
      titleCaseGo cased rest

def titleCase (s : String) : String := String.mk (titleCaseGo false s.data)

/-- `clean_map_name`. -/
def clean_map_name (name : String) : String :=
  if name = "" then "Unknown"
  else
    let n := stripRmsSuffix name
    let n := if pyLower n ≠ "my map" then titleCase n else n
    pyStrip n

/-! ### The match data model

Dictionaries are modelled as structures with `Option`-typed fields: `none` is
an absent key.  The `outcome` field of a player needs the absent/null
distinction (`"outcome" in player` versus its value), hence `Option (Option
Int)`. -/

/-- Python truthiness of an optional string (`None` and `""` are falsy). -/
def truthyStr : Option String → Bool
  | none => false
  | some s => s ≠ ""

/-- Python truthiness of an optional integer (`None` and `0` are falsy). -/
def truthyInt : Option Int → Bool
  | none => false
  | some n => n ≠ 0

/-- `a or b` on two `dict.get` results (first truthy value, else the second
operand). -/
def pyOr (a b : Option String) : Option String :=
  if truthyStr a then a else b

structure Player where
  player_id : Option String := none
  player_name : Option String := none
  civ_id : Option Int := none
  civ : Option String := none
  elo : Option Int := none
  elo_change : Option Int := none
  strategy : Option String := none
  /-- Legacy raw key `id`, read by `normalize_match` as a fallback. -/
  id : Option String := none
  /-- Legacy raw key `name`, read by `normalize_match` as a fallback. -/
  name : Option String := none
  /-- `won` key: set by `parse_native_match`, dropped by `normalize_match`. -/
  won : Option Bool := none
  /-- `outcome` key: `some v` means the key is present with value `v`
  (possibly null).  Set by `parse_native_match` and popped again before the
  player is stored. -/
  outcome : Option (Option Int) := none
deriving DecidableEq

structure Team where
  /-- `won` key (`none` = absent; the code reads it as `team.get("won")`). -/
  won : Option Bool := none
  players : List Player := []
deriving DecidableEq

structure Match where
  game_id : Option String := none
  /-- Legacy raw key `match_id`, fallback for `game_id`. -/
  match_id : Option String := none
  mode : Option String := none
  map : Option String := none
  /-- Legacy raw key `map_name`. -/
  map_name : Option String := none
  duration : Option String := none
  start_datetime : Option String := none
  /-- Legacy raw keys `datetime` / `datetime_parsed` / `date`. -/
  datetime : Option String := none
  datetime_parsed : Option String := none
  date : Option String := none
  end_datetime : Option String := none
  /-- `teams` key (`none` = absent; read as `match.get("teams") or []`). -/
  teams : Option (List Team) := none
deriving DecidableEq

/-! ### Win determination -/

/-- `determine_win`: ranked `elo_change` signal first (Python truthiness, so a
zero change falls through), then an explicit `outcome` field (win sentinel
`1`), then the team's `won` flag. -/
def determine_win (team : Team) (player : Player) : Bool :=
  if truthyInt player.elo_change then decide (player.elo_change.getD 0 > 0)
  else
    match player.outcome with
    | some v => decide (v = some (1 : Int))
    | none => team.won.getD false

/-! ### The native (Relic API) source connector -/

/-- `str(x)` on an optional numeric JSON field (`str(None)` is `"None"`). -/
def pyStr (o : Option Int) : String :=
  match o with
  | some n => toString n
  | none => "None"

/-- One entry of `matchhistorymember`.  A missing `teamid` would make the
`sorted` call in `parse_native_match` raise in Python 3; it is modelled as a
required field. -/
structure NativeMember where
  profile_id : Option Int := none
  teamid : Int := 0
  civilization_id : Option Int := none
  oldrating : Option Int := none
  newrating : Option Int := none
  outcome : Option Int := none
deriving DecidableEq

/-- An entry of the `profiles` side table (`alias` / `name` keys). -/
structure ProfileInfo where
  «alias» : Option String := none
  name : Option String := none
deriving DecidableEq

structure NativeRawMatch where
  id : Option Int := none
  matchtype_id : Option Int := none
  /-- `mapname` key; `raw_match.get("mapname", "Unknown Map")`. -/
  mapname : Option String := none
  startgametime : Option Int := none
  completiontime : Option Int := none
  matchhistorymember : List NativeMember := []
deriving DecidableEq

/-- `CIV_LIST` (the alphabetical Relic civilization table). -/
def CIV_LIST : List String :=
  ["Armenians", "Aztecs", "Bengalis", "Berbers", "Bohemians", "Britons",
   "Bulgarians", "Burgundians", "Burmese", "Byzantines", "Celts", "Chinese",
   "Cumans", "Dravidians", "Ethiopians", "Franks", "Georgians", "Goths",
   "Gurjaras", "Hindustanis", "Huns", "Incas", "Italians", "Japanese",
   "Khmer", "Koreans", "Lithuanians", "Magyars", "Malay", "Malians",
   "Mayans", "Mongols", "Persians", "Poles", "Portuguese", "Romans",
   "Saracens", "Sicilians", "Slavs", "Spanish", "Tatars", "Teutons",
   "Turks", "Vietnamese", "Vikings"]

/-- `CIV_MAP.get(civ_id, f"Civ {civ_id}")`. -/
def civName (civ_id : Option Int) : String :=
  match civ_id with
  | some n => if h : 0 ≤ n ∧ n.toNat < CIV_LIST.length then CIV_LIST.get ⟨n.toNat, h.2⟩
              else "Civ " ++ toString n
  | none => "Civ None"

/-- `MODE_MAP`. -/
def MODE_MAP : List (Int × String) :=
  [(0, "Custom"),
   (1, "RM 1v1"), (2, "RM 1v1"), (3, "RM 2v2"), (4, "RM 3v3"), (5, "RM 4v4"),
   (6, "RM 1v1"), (7, "RM 2v2"), (8, "RM 3v3"), (9, "RM 4v4"),
   (10, "FFA"),
   (26, "EW 1v1"), (27, "EW 2v2"), (28, "EW 3v3"), (29, "EW 4v4"),
   (60, "Custom DM 1v1"), (61, "Custom DM Team"),
   (66, "RM 1v1"), (67, "RM 2v2"), (68, "RM 3v3"), (69, "RM 4v4"),
   (86, "RM 1v1"), (87, "RM 2v2"), (88, "RM 3v3"), (89, "RM 4v4"),
   (120, "Custom"), (121, "Custom"), (122, "Custom"), (123, "Custom"),
   (124, "Custom"), (125, "Custom")]

/-- `MODE_MAP.get(match_type_id, f"Mode {match_type_id}")`. -/
def modeName (match_type_id : Option Int) : String :=
  match match_type_id with
  | some n =>
    match (MODE_MAP.find? (fun kv => kv.1 = n)).map Prod.snd with
    | some s => s
    | none => "Mode " ++ toString n
  | none => "Mode None"

/-- `f"{h}h {m}m {s}s"` / `f"{m}m {s}s"` built from the timestamp difference
(Python `//` and `%` are floor operations on ints). -/
def nativeDurationStr (startTs endTs : Int) : String :=
  let diff := endTs - startTs
  let h := Int.fdiv diff 3600
  let m := Int.fdiv (Int.fmod diff 3600) 60
  let s := Int.fmod diff 60
  if h > 0 then
    toString h ++ "h " ++ toString m ++ "m " ++ toString s ++ "s"
  else
    toString m ++ "m " ++ toString s ++ "s"

/-- The `player_obj` built by `parse_native_match` for one member. -/
def nativePlayerObj (profilesMap : List (String × ProfileInfo)) (member : NativeMember) :
    Player :=
  let pId := pyStr member.profile_id
  let pInfo := ((profilesMap.find? (fun kv => kv.1 = pId)).map Prod.snd).getD {}
  { player_id := some pId
    player_name := some (pInfo.«alias».getD (pInfo.name.getD "Unknown"))
    civ_id := member.civilization_id
    civ := some (civName member.civilization_id)
    elo := member.oldrating
    elo_change :=
      match member.newrating, member.oldrating with
      | some newR, some oldR => some (newR - oldR)
      | _, _ => none
    strategy := none
    won := some false
    outcome := some member.outcome }

/-- `defaultdict(list)` grouping of members by `teamid`, preserving first-seen
key order and within-key order. -/
def groupByTeam (members : List NativeMember) : List (Int × List NativeMember) :=
  members.foldl
    (fun acc m =>
      if (acc.find? (fun kv => kv.1 = m.teamid)).isSome then
        acc.map (fun kv => if kv.1 = m.teamid then (kv.1, kv.2 ++ [m]) else kv)
      else acc ++ [(m.teamid, [m])])
    []

/-- The body of the `for t_id in sorted(teams_data.keys())` loop: resolve each
player's win against the `{"won": False}` stub, pop the internal `outcome`
key, and mark the team as won if any player won. -/
def mkNativeTeam (profilesMap : List (String × ProfileInfo)) (members : List NativeMember) :
    Team :=
  let players := members.map fun m =>
    let p := nativePlayerObj profilesMap m
    { p with won := some (determine_win { won := some false } p), outcome := none }
  { won := some (players.any fun p => p.won.getD false), players := players }

/-- `parse_native_match`. -/
def parse_native_match (raw : NativeRawMatch) (profilesMap : List (String × ProfileInfo)) :
    Match :=
  let startDt := if truthyInt raw.startgametime
    then some (DateTime.fromTimestamp (raw.startgametime.getD 0)) else none
  let endDt := if truthyInt raw.completiontime
    then some (DateTime.fromTimestamp (raw.completiontime.getD 0)) else none
  let durationStr :=
    if truthyInt raw.startgametime ∧ truthyInt raw.completiontime then
      some (nativeDurationStr (raw.startgametime.getD 0) (raw.completiontime.getD 0))
    else none
  let keys := (groupByTeam raw.matchhistorymember).map Prod.fst
  let sortedKeys := List.insertionSort (fun a b : Int => a ≤ b) keys
  let teams := sortedKeys.map fun k =>
    mkNativeTeam profilesMap
      (((groupByTeam raw.matchhistorymember).find? (fun kv => kv.1 = k)).map Prod.snd |>.getD [])
  { game_id := some (pyStr raw.id)
    mode := some (modeName raw.matchtype_id)
    map := some (clean_map_name (raw.mapname.getD "Unknown Map"))
    duration := durationStr
    start_datetime := format_dt startDt
    end_datetime := format_dt endDt
    teams := some teams }

/-! ### Normalization -/

/-- `normalize_match` on a dictionary (its `None`-returning branch applies
only to non-dictionary JSON items and lives in `normalizeItem` below). -/
def normalize_match (m : Match) : Match :=
  let game_id := pyOr m.game_id m.match_id
  let raw_map :=
    match pyOr m.map m.map_name with
    | some s => if s = "" then "Unknown Map" else s
    | none => "Unknown Map"
  let normalized_teams := (m.teams.getD []).map fun t =>
    { won := some (t.won.getD false)
      players := t.players.map fun p =>
        { player_id := pyOr p.player_id p.id
          player_name := pyOr p.player_name p.name
          civ_id := p.civ_id
          civ := p.civ
          elo := p.elo
          elo_change := p.elo_change
          strategy := p.strategy } }
  let raw_dt := pyOr (pyOr (pyOr m.start_datetime m.datetime) m.datetime_parsed) m.date
  let start_dt := if truthyStr raw_dt then parse_datetime_value raw_dt else none
  let dt_iso := format_dt start_dt
  let end_dt := if truthyStr m.end_datetime then parse_datetime_value m.end_datetime else none
  let end_iso := format_dt end_dt
  let start_dt' :=
    match start_dt, end_dt with
    | none, some e =>
      match duration_to_real_seconds m.duration with
      | some q => some (dtSubSeconds e q)
      | none => none
    | _, _ => start_dt
  let dt_iso' :=
    match start_dt, end_dt with
    | none, some _ => format_dt start_dt'
    | _, _ => dt_iso
  { game_id := game_id
    mode := m.mode
    map := some (clean_map_name raw_map)
    duration := m.duration
    start_datetime := dt_iso'
    end_datetime := end_iso
    teams := some normalized_teams }

/-! ### The match store -/

/-- One item of a decoded cache-file list: a dictionary (modelled by `Match`)
or some other JSON value, which `normalize_match` maps to `None`. -/
inductive JsonItem where
  | jmatch (m : Match)
  | jnondict
deriving DecidableEq

/-- `normalize_match(item)` over a JSON item. -/
def normalizeItem : JsonItem → Option Match
  | .jmatch m => some (normalize_match m)
  | .jnondict => none

/-- The decoded top-level JSON value of a cache file.  Iterating a decoded
dictionary yields its keys and iterating a string yields characters — both
normalize away to nothing; a number, boolean or null is not iterable and makes
the list comprehension raise `TypeError`. -/
inductive CacheJson where
  | jlist (items : List JsonItem)
  | jdict (keys : List String)
  | jstring (s : String)
  | jscalar
deriving DecidableEq

/-- A cache file: missing, present but not decodable as JSON
(`json.JSONDecodeError`), or decoded to a JSON value. -/
inductive CacheFile where
  | absent
  | undecodable
  | decoded (v : CacheJson)
deriving DecidableEq

/-- The normalization/filter pipeline of `load_cached_matches` on an
already-decoded list. -/
def loadList (items : List JsonItem) : List Match :=
  (items.filterMap normalizeItem).filter fun m => truthyStr m.game_id

/-- `load_cached_matches`.  `Except` models an uncaught Python exception:
only `json.JSONDecodeError` is caught, so a file that decodes to a
non-iterable scalar raises `TypeError` out of the function. -/
def load_cached_matches : CacheFile → Except String (List Match)
  | .absent => .ok []
  | .undecodable => .ok []
  | .decoded (.jlist items) => .ok (loadList items)
  | .decoded (.jdict _) => .ok []
  | .decoded (.jstring _) => .ok []
  | .decoded .jscalar => .error "TypeError: object is not iterable"

/-- `match_sort_key`. -/
def match_sort_key (m : Match) : DateTime :=
  let dt_raw := pyOr (pyOr m.start_datetime m.datetime) m.date
  match (if truthyStr dt_raw then parse_datetime_value dt_raw else none) with
  | some d => d
  | none =>
    match (if truthyStr m.end_datetime then parse_datetime_value m.end_datetime else none) with
    | some d => d
    | none => dtMin

/-- The sort relation of `save_matches`: comparison of the sort keys
(Python compares `datetime` values lexicographically on their components,
which on calendar-valid values is comparison of `DateTime.key`). -/
def sortLe (a b : Match) : Prop := (match_sort_key a).key ≤ (match_sort_key b).key

instance : DecidableRel sortLe := fun x y => Nat.decLe (match_sort_key x).key (match_sort_key y).key

instance : IsTotal Match sortLe := ⟨fun x y => Nat.le_total (match_sort_key x).key (match_sort_key y).key⟩

instance : IsTrans Match sortLe := ⟨fun _ _ _ => Nat.le_trans⟩

/-- Insertion into a Python dictionary viewed as an association list: an
existing key keeps its position and gets the new value, a fresh key is
appended. -/
def dictInsert (k : String) (v : Match) : List (String × Match) → List (String × Match)
  | [] => [(k, v)]
  | (k', v') :: rest => if k' = k then (k', v) :: rest else (k', v') :: dictInsert k v rest

/-- The `unique_matches` dictionary built by `save_matches` (entries with a
falsy `game_id` are skipped). -/
def unique_matches (ms : List Match) : List (String × Match) :=
  ms.foldl
    (fun d m => if truthyStr m.game_id then dictInsert (m.game_id.getD "") m d else d) []

/-- The list `save_matches` serializes: dictionary values, stably sorted by
`match_sort_key` ascending.  `json.dump` is deterministic, so the file bytes
are a function of this list. -/
def save_matches (ms : List Match) : List Match :=
  List.insertionSort sortLe ((unique_matches ms).map Prod.snd)

/-- The merge dictionary of `refresh_matches`: cached entries first, then the
newly fetched ones overwrite (`all_map[m["game_id"]] = m`; every entry of
either list carries a `game_id` key there, read by direct indexing). -/
def refreshMerge (cached new : List Match) : List Match :=
  ((cached ++ new).foldl (fun d m => dictInsert (m.game_id.getD "") m d) []).map Prod.snd

/-! ### Ranked RM 1v1 analytics -/

/-- `DURATION_BUCKETS`: label, inclusive lower bound, exclusive upper bound
(`none` = open-ended). -/
def DURATION_BUCKETS : List (String × Int × Option Int) :=
  [("< 5m", 0, some (5 * 60)),
   ("5-15m", 5 * 60, some (15 * 60)),
   ("15-25m", 15 * 60, some (25 * 60)),
   ("25-40m", 25 * 60, some (40 * 60)),
   (">= 40m", 40 * 60, none)]

/-- The scan of `bucket_label` over the bucket table. -/
def bucketFind : List (String × Int × Option Int) → Int → Option String
  | [], _ => none
  | (label, lower, upper) :: rest, seconds =>
    match upper with
    | none => if seconds ≥ lower then some label else bucketFind rest seconds
    | some u => if lower ≤ seconds ∧ seconds < u then some label else bucketFind rest seconds

/-- `bucket_label`. -/
def bucket_label (seconds : Option Int) : Option String :=
  match seconds with
  | none => none
  | some s => bucketFind DURATION_BUCKETS s

/-- The user-locating scan shared by `compute_ranked_stats` and
`user_outcome`: first team (in order) containing a player whose `player_id`
equals the Insights ID or the Relic ID, together with that player.
`get_relic_id` performs a cached network lookup; its result is passed in as
the `relicId` argument. -/
def findUserInTeams (userId relicId : String) (teams : List Team) : Option (Nat × Player) :=
  (teams.enum.filterMap fun ti =>
    ((ti.2.players.find? fun p =>
        p.player_id = some userId ∨ p.player_id = some relicId).map
      fun p => (ti.1, p))).head?

/-- The `total`/`wins` tallies of `compute_ranked_stats` (the per-opponent,
per-civilization, per-map and per-duration breakdown tables aggregate the same
per-match `user_win` value and are not needed by any claim). -/
structure RankedStats where
  total : Nat
  wins : Nat
deriving DecidableEq

/-- One iteration of the match loop of `compute_ranked_stats`. -/
def rankedStep (userId relicId : String) (acc : RankedStats) (m : Match) : RankedStats :=
  if m.mode = some "RM 1v1" ∨ m.mode = some "1v1" then
    let teams := m.teams.getD []
    match findUserInTeams userId relicId teams with
    | none => acc
    | some (idx, _) =>
      let user_win := (teams.get? idx >>= Team.won).getD false
      let opp_players :=
        (teams.enum.filter fun ti => ti.1 ≠ idx).flatMap fun ti => ti.2.players
      if opp_players = [] then acc
      else ⟨acc.total + 1, acc.wins + (if user_win then 1 else 0)⟩
  else acc

/-- `compute_ranked_stats` (its credited tallies). -/
def compute_ranked_stats (ms : List Match) (userId relicId : String) : RankedStats :=
  ms.foldl (rankedStep userId relicId) ⟨0, 0⟩

/-- `user_outcome`: `(None, None)` becomes `none`; otherwise the pair of
`bool(teams[user_team_idx].get("won"))` and the located player. -/
def user_outcome (m : Match) (userId relicId : String) : Option (Bool × Player) :=
  (findUserInTeams userId relicId (m.teams.getD [])).map fun ip =>
    (((m.teams.getD []).get? ip.1 >>= Team.won).getD false, ip.2)

/-! ### Session segmentation -/

/-- An element of the `prepared` list built by `prepare_user_matches`. -/
structure Entry where
  ts : DateTime
  end_ts : DateTime
  win : Bool
  «match» : Match := {}
deriving DecidableEq

/-- The sort relation of `group_sessions` (`key=lambda x: x["ts"]`). -/
def entryLe (a b : Entry) : Prop := a.ts.key ≤ b.ts.key

instance : DecidableRel entryLe := fun x y => Nat.decLe x.ts.key y.ts.key

instance : IsTotal Entry entryLe := ⟨fun x y => Nat.le_total x.ts.key y.ts.key⟩

instance : IsTrans Entry entryLe := ⟨fun _ _ _ => Nat.le_trans⟩

/-- `gap > idle_minutes` where
`gap = (ts - last_end).total_seconds() / 60.0`: with an integer threshold the
float comparison is exactly the integer comparison of seconds. -/
def gapExceeds (idle : Nat) (lastEnd ts : DateTime) : Bool :=
  decide ((ts.key : Int) - (lastEnd.key : Int) > 60 * (idle : Int))

/-- The loop of `group_sessions` after the first entry: `current` is the open
session (always nonempty), `lastEnd` the previous entry's end time. -/
def sessGo (idle : Nat) : List Entry → List Entry → DateTime → List (List Entry)
  | [], current, _ => if current.isEmpty then [] else [current]
  | e :: rest, current, lastEnd =>
    if gapExceeds idle lastEnd e.ts then
      (if current.isEmpty then [] else [current]) ++ sessGo idle rest [e] e.end_ts
    else
      sessGo idle rest (current ++ [e]) e.end_ts

/-- `group_sessions`; `idle_minutes` defaults to `SESSION_IDLE_MINUTES = 20`
at every call site of the source. -/
def group_sessions (prepared : List Entry) (idle_minutes : Nat) :
    List (List Entry) :=
  match List.insertionSort entryLe prepared with
  | [] => []
  | e :: rest => sessGo idle_minutes rest [e] e.end_ts

/-! ### The web app's advisory lock (`app.py`)

Modelled from the spec: `is_file_locked`, `status_path_for`, `load_status` and
`backfill_history` are referenced by `app.py` but their definitions are not
part of the sources; per the spec they realise an advisory file lock on the
per-player status record, held by an in-flight writer. -/

inductive LockState where
  | free
  | heldByOther
deriving DecidableEq

/-- Modelled from the spec: `is_file_locked` reports whether the status-record
advisory lock is currently held. -/
def is_file_locked : LockState → Bool
  | .free => false
  | .heldByOther => true

/-- The distinct responses of the `refresh_player` route: HTTP 409 "busy",
HTTP 200 success, or the generic HTTP 500 failure. -/
inductive RefreshResponse where
  | busy409
  | success200
  | genericError500 (msg : String)
deriving DecidableEq

/-- The distinct responses of the `backfill_player` route. -/
inductive BackfillResponse where
  | alreadyRunning202
  | started202
deriving DecidableEq

/-- `refresh_player`: check the advisory lock first and fail fast with the
distinct busy response; otherwise run `refresh_matches`, whose outcome
(modelled as the `refreshed` argument, since it performs network fetches) is
reported as success or as the generic 500 error.  The returned store is the
stored match list after the call. -/
def refresh_player (lock : LockState) (store : List Match)
    (refreshed : Except String (List Match)) : RefreshResponse × List Match :=
  if is_file_locked lock then (.busy409, store)
  else
    match refreshed with
    | .ok ms => (.success200, ms)
    | .error e => (.genericError500 e, store)

/-- `backfill_player`: check the advisory lock first and fail fast with the
distinct "already in progress" response; otherwise start the background
backfill (modelled as the `backfilled` argument). -/
def backfill_player (lock : LockState) (store : List Match)
    (backfilled : List Match) : BackfillResponse × List Match :=
  if is_file_locked lock then (.alreadyRunning202, store)
  else (.started202, backfilled)

/-! ### Values and auxiliary notions used by the claims -/

/-- Keys of a dictionary association list. -/
def dictKeys (d : List (String × Match)) : List String := d.map Prod.fst

/-- `d.get(g)` on a dictionary association list. -/
def dLookup (g : String) (d : List (String × Match)) : Option Match :=
  (d.find? (fun kv => kv.1 = g)).map Prod.snd

/-- One step of the fold building `unique_matches`. -/
def saveStep (d : List (String × Match)) (m : Match) : List (String × Match) :=
  if truthyStr m.game_id then dictInsert (m.game_id.getD "") m d else d

/-- Every entry of the dictionary stores a match whose (truthy) `game_id` is
its key. -/
def dictOk (d : List (String × Match)) : Prop :=
  ∀ kv ∈ d, kv.2.game_id = some kv.1 ∧ kv.1 ≠ ""

/-- Round trip of `refresh_matches` when the remote fetch produces nothing
new: the stored list is loaded (normalizing each entry) and saved again. -/
def resync (stored : List Match) : List Match :=
  save_matches (loadList (stored.map JsonItem.jmatch))

/-- A stored match already in normal form: a fixpoint of `normalize_match`. -/
def normalStoredMatch : Match :=
  { game_id := some "1", mode := some "RM 1v1", map := some "Arabia",
    duration := some "10m 0s",
    start_datetime := some "2024-03-05 15:04",
    end_datetime := some "2024-03-05 15:14",
    teams := some [{ won := some true, players := [
      { player_id := some "5", player_name := some "P", civ_id := some 26,
        civ := some "Lithuanians", elo := some 1000, elo_change := some 15,
        strategy := none }] }] }

/-- Entries that stay in one session: the idle gap between the earlier
entry's end and the later entry's start does not exceed the threshold. -/
def intraOk (idle : Nat) (a b : Entry) : Prop :=
  gapExceeds idle a.end_ts b.ts = false

/-- A session boundary: the gap from the last entry of the earlier session to
the first entry of the later one strictly exceeds the threshold. -/
def interSplit (idle : Nat) (s t : List Entry) : Prop :=
  ∀ a, s.getLast? = some a → ∀ b, t.head? = some b →
    gapExceeds idle a.end_ts b.ts = true

/-- An entry of the C5 scenario at a given minute offset (zero duration). -/
def exEntry (minute : Nat) : Entry :=
  ⟨⟨2024, 1, 1, 12, minute, 0⟩, ⟨2024, 1, 1, 12, minute, 0⟩, true, {}⟩

/-- A stored RM 1v1 match whose identified player carries `elo_change = +15`
but whose team-level `won` flag is `False` (with the opposing team flagged
`True`): the analytics read only the team flag. -/
def conflictedMatch : Match :=
  { game_id := some "1", mode := some "RM 1v1",
    teams := some
      [{ won := some false,
         players := [{ player_id := some "u", elo_change := some 15 }] },
       { won := some true,
         players := [{ player_id := some "o", elo_change := some (-15) }] }] }

/-- The concrete one-sided RM 1v1 native raw match used by the C1 witness. -/
def nativeWinnerMember : NativeMember :=
  { profile_id := some 5, teamid := 0, oldrating := some 1000, newrating := some 1015 }

def nativeLoserMember : NativeMember :=
  { profile_id := some 6, teamid := 1, oldrating := some 1000, newrating := some 985 }

def nativeRaw1v1 : NativeRawMatch :=
  { id := some 9, matchtype_id := some 6,
    matchhistorymember := [nativeWinnerMember, nativeLoserMember] }

/-! ## Claims -/

/-- `bucket_label` as a chain of threshold tests. -/
theorem bucket_label_eq (s : Int) :
    bucket_label (some s) =
      if 0 ≤ s then
        (if s < 300 then some "< 5m"
         else if s < 900 then some "5-15m"
         else if s < 1500 then some "15-25m"
         else if s < 2400 then some "25-40m"
         else some ">= 40m")
      else none := by
  simp only [bucket_label, DURATION_BUCKETS, bucketFind]
  split_ifs <;> first | rfl | omega

/-- C9: `bucket_label` maps every (non-negative) duration in seconds to the
fixed ordered buckets `< 5m`, `5-15m`, `15-25m`, `25-40m`, `>= 40m`, with
inclusive lower bound, exclusive upper bound and an open-ended last bucket;
`300` seconds lands in `5-15m`, and a missing duration has no bucket. -/
theorem bucket_label_ranges (s : Int) (h : 0 ≤ s) :
    (bucket_label (some s) = some "< 5m" ↔ s < 300) ∧
    (bucket_label (some s) = some "5-15m" ↔ 300 ≤ s ∧ s < 900) ∧
    (bucket_label (some s) = some "15-25m" ↔ 900 ≤ s ∧ s < 1500) ∧
    (bucket_label (some s) = some "25-40m" ↔ 1500 ≤ s ∧ s < 2400) ∧
    (bucket_label (some s) = some ">= 40m" ↔ 2400 ≤ s) ∧
    bucket_label (some 300) = some "5-15m" ∧
    bucket_label none = none := by
  refine ⟨?_, ?_, ?_, ?_, ?_, by decide, rfl⟩ <;>
    (rw [bucket_label_eq]; split_ifs <;> simp_all <;> omega)

/-- Witness for C9: the theorem applied at `300` seconds. -/
theorem bucket_label_ranges_witness : bucket_label (some 300) = some "5-15m" :=
  ((bucket_label_ranges 300 (by norm_num)).2.1).mpr (by norm_num)

/-- C2 as stated is false: `elo_change = 0` is present (non-null), yet
`determine_win` tests Python truthiness, falls through to the `outcome`
field, and returns a win — while `elo_change > 0` is false. -/
theorem determine_win_zero_elo_counterexample :
    determine_win { won := some false }
        { elo_change := some 0, outcome := some (some 1) } = true
      ∧ ¬ ((0 : Int) > 0) := by
  exact ⟨rfl, by norm_num⟩

/-- C2 amended: `determine_win` resolves in priority order
(a) a present **and non-zero** `elo_change` decides win iff it is positive,
(b) else a present `outcome` key decides win iff it equals the win sentinel 1,
(c) else the team's `won` flag decides; and an `elo_change` of `+15` is a win
whatever the team flag says — in particular the one-member native raw match
with `game_id` `"1"` and rating change `+15` parses to a team and player both
marked won. -/
theorem determine_win_priority (t : Team) (p : Player) :
    (∀ e : Int, p.elo_change = some e → e ≠ 0 →
      (determine_win t p = true ↔ e > 0)) ∧
    ((p.elo_change = none ∨ p.elo_change = some 0) →
      ∀ v, p.outcome = some v → (determine_win t p = true ↔ v = some 1)) ∧
    ((p.elo_change = none ∨ p.elo_change = some 0) → p.outcome = none →
      determine_win t p = t.won.getD false) ∧
    (∀ t' : Team, determine_win t' { elo_change := some 15 } = true) ∧
    ((parse_native_match
        { id := some 1,
          matchhistorymember :=
            [{ profile_id := some 7, teamid := 0,
               oldrating := some 1000, newrating := some 1015 }] } []).game_id
      = some "1" ∧
     ((parse_native_match
        { id := some 1,
          matchhistorymember :=
            [{ profile_id := some 7, teamid := 0,
               oldrating := some 1000, newrating := some 1015 }] } []).teams.getD []).map
        (fun tm => (tm.won, tm.players.map Player.won)) = [(some true, [some true])]) := by
  refine ⟨?_, ?_, ?_, ?_, by decide, by decide⟩
  · intro e he hne
    simp [determine_win, truthyInt, he, hne]
  · rintro (h | h) v hv <;>
      simp [determine_win, truthyInt, h, hv]
  · rintro (h | h) hv <;>
      simp [determine_win, truthyInt, h, hv]
  · intro t'
    simp [determine_win, truthyInt]

/-- Witness for C2: the amended theorem applied at a concrete losing player
(`elo_change = -5` present and non-zero, conflicting team flag `True`). -/
theorem determine_win_priority_witness :
    (determine_win { won := some true } { elo_change := some (-5) } = true ↔ (-5 : Int) > 0) :=
  (determine_win_priority { won := some true } { elo_change := some (-5) }).1 (-5) rfl (by norm_num)

/-- C7 as stated is false for one kind of corrupt content: a cache file whose
bytes decode to a JSON scalar (for instance a file containing just `5`) makes
`load_cached_matches` raise `TypeError` when the comprehension iterates the
decoded value — only `json.JSONDecodeError` is caught. -/
theorem load_cached_scalar_raises :
    load_cached_matches (.decoded .jscalar) = .error "TypeError: object is not iterable" := rfl

/-- C7 amended: for a missing file, for contents that are not decodable as
JSON, and for decodable but non-list iterable top-level values (an object or a
string), `load_cached_matches` does not raise and returns the empty (or
filtered-empty) list; only a file decoding to a non-iterable scalar escapes
with `TypeError`. -/
theorem load_cached_matches_recovers :
    load_cached_matches .absent = .ok [] ∧
    load_cached_matches .undecodable = .ok [] ∧
    (∀ ks, load_cached_matches (.decoded (.jdict ks)) = .ok []) ∧
    (∀ s, load_cached_matches (.decoded (.jstring s)) = .ok []) := by
  exact ⟨rfl, rfl, fun _ => rfl, fun _ => rfl⟩

/-- C8: when the advisory status-record lock is held by another in-flight
writer, `refresh_player` and `backfill_player` fail fast with their distinct
busy responses (HTTP 409 / "already in progress" 202), the stored match list
is left untouched, and the busy response is distinct from the generic failure
response. -/
theorem locked_requests_fail_fast_busy (store : List Match)
    (refreshed : Except String (List Match)) (backfilled : List Match) :
    refresh_player .heldByOther store refreshed = (.busy409, store) ∧
    backfill_player .heldByOther store backfilled = (.alreadyRunning202, store) ∧
    (∀ msg, RefreshResponse.busy409 ≠ RefreshResponse.genericError500 msg) := by
  exact ⟨rfl, rfl, fun _ h => by cases h⟩

/-- C1 as stated is false: on `conflictedMatch` the target player carries the
non-null positive `elo_change = +15`, yet `compute_ranked_stats` credits the
match as a loss (1 match, 0 wins) and `user_outcome` resolves to `False`;
the analytics functions read the team-level `won` flag and never consult
`elo_change`. -/
theorem ranked_elo_override_counterexample :
    truthyInt (some (15 : Int)) = true ∧ ((15 : Int) > 0) ∧
    compute_ranked_stats [conflictedMatch] "u" "u" = ⟨1, 0⟩ ∧
    (user_outcome conflictedMatch "u" "u").map Prod.fst = some false := by
  refine ⟨rfl, by norm_num, by decide, by decide⟩

lemma groupByTeam_pair (mu mo : NativeMember) (h : mu.teamid ≠ mo.teamid) :
    groupByTeam [mu, mo] = [(mu.teamid, [mu]), (mo.teamid, [mo])] := by
  simp only [groupByTeam, List.foldl, List.find?]
  rw [decide_eq_false h]
  simp

lemma insertionSort_pair (x y : Int) :
    List.insertionSort (fun a b : Int => a ≤ b) [x, y] =
      if x ≤ y then [x, y] else [y, x] := by
  simp [List.insertionSort, List.orderedInsert]

lemma mkNativeTeam_single (pm : List (String × ProfileInfo)) (m : NativeMember) (a b : Int)
    (hor : m.oldrating = some a) (hnr : m.newrating = some b) (hez : b - a ≠ 0) :
    mkNativeTeam pm [m] =
      { won := some (decide (0 < b - a)),
        players := [{ nativePlayerObj pm m with
          won := some (decide (0 < b - a)), outcome := none }] } := by
  have hp : (nativePlayerObj pm m).elo_change = some (b - a) := by
    simp [nativePlayerObj, hor, hnr]
  have hw : determine_win { won := some false } (nativePlayerObj pm m) = decide (0 < b - a) := by
    rw [determine_win, if_pos (by simp [truthyInt, hp, hez])]
    simp [hp]
  simp [mkNativeTeam, hw]

lemma parse_native_mode (raw : NativeRawMatch) (pm : List (String × ProfileInfo)) :
    (parse_native_match raw pm).mode = some (modeName raw.matchtype_id) := rfl

lemma parse_native_pair_teams (raw : NativeRawMatch) (pm : List (String × ProfileInfo))
    (mu mo : NativeMember)
    (hm : raw.matchhistorymember = [mu, mo]) (ht : mu.teamid ≠ mo.teamid) :
    (parse_native_match raw pm).teams =
      some (if mu.teamid ≤ mo.teamid
            then [mkNativeTeam pm [mu], mkNativeTeam pm [mo]]
            else [mkNativeTeam pm [mo], mkNativeTeam pm [mu]]) := by
  simp only [parse_native_match, hm, groupByTeam_pair mu mo ht, List.map,
    insertionSort_pair]
  split_ifs with hle
  · simp [List.find?, decide_eq_false ht, decide_eq_false (Ne.symm ht)]
  · simp [List.find?, decide_eq_false ht, decide_eq_false (Ne.symm ht)]

lemma mkNativeTeam_single_eq (pm : List (String × ProfileInfo)) (m : NativeMember) :
    mkNativeTeam pm [m] =
      { won := some (determine_win { won := some false } (nativePlayerObj pm m)),
        players := [{ nativePlayerObj pm m with
          won := some (determine_win { won := some false } (nativePlayerObj pm m)),
          outcome := none }] } := by
  simp [mkNativeTeam]

lemma nativePlayerObj_id (pm : List (String × ProfileInfo)) (m : NativeMember) :
    (nativePlayerObj pm m).player_id = some (pyStr m.profile_id) := rfl

lemma findUser_pair_fst (uid rid : String) (T1 T2 : Team) (p1 : Player)
    (h1 : T1.players = [p1]) (hp1 : p1.player_id = some uid) :
    findUserInTeams uid rid [T1, T2] = some (0, p1) := by
  simp [findUserInTeams, List.enum, h1, List.find?, hp1]

lemma findUser_pair_snd (uid rid : String) (T1 T2 : Team) (p1 p2 : Player)
    (h1 : T1.players = [p1]) (h2 : T2.players = [p2])
    (hne1 : p1.player_id ≠ some uid) (hne2 : p1.player_id ≠ some rid)
    (hp2 : p2.player_id = some uid) :
    findUserInTeams uid rid [T1, T2] = some (1, p2) := by
  simp [findUserInTeams, List.enum, h1, h2, List.find?, hp2, hne1, hne2]

/-- C1 amended: `compute_ranked_stats` and `user_outcome` credit the
team-level `won` flag (see the counterexample), so the `elo_change` invariant
holds one step earlier in the pipeline: for a ranked RM 1v1 match produced by
`parse_native_match` from two members on distinct teams, where the target
player is identified by profile id and carries a non-zero rating change
`b - a`, the win credited by both analytics functions equals `b - a > 0` —
the stored team flag was derived from `elo_change` by `determine_win`. -/
theorem ranked_native_elo_agreement
    (uid rid : String) (pm : List (String × ProfileInfo))
    (raw : NativeRawMatch) (mu mo : NativeMember) (a b : Int)
    (hm : raw.matchhistorymember = [mu, mo])
    (ht : mu.teamid ≠ mo.teamid)
    (hmode : modeName raw.matchtype_id = "RM 1v1")
    (hor : mu.oldrating = some a) (hnr : mu.newrating = some b)
    (hez : b - a ≠ 0)
    (huid : pyStr mu.profile_id = uid)
    (ho1 : pyStr mo.profile_id ≠ uid) (ho2 : pyStr mo.profile_id ≠ rid) :
    compute_ranked_stats [parse_native_match raw pm] uid rid =
      ⟨1, if 0 < b - a then 1 else 0⟩ ∧
    (user_outcome (parse_native_match raw pm) uid rid).map Prod.fst =
      some (decide (0 < b - a)) := by
  have hteams := parse_native_pair_teams raw pm mu mo hm ht
  have hTu := mkNativeTeam_single pm mu a b hor hnr hez
  have hTo := mkNativeTeam_single_eq pm mo
  set pu : Player :=
    { nativePlayerObj pm mu with won := some (decide (0 < b - a)), outcome := none } with hpu
  set wo : Bool := determine_win { won := some false } (nativePlayerObj pm mo) with hwo
  set po : Player :=
    { nativePlayerObj pm mo with won := some wo, outcome := none } with hpo
  have hpuid : pu.player_id = some uid := by
    simp [hpu, nativePlayerObj_id, huid]
  have hpoid : po.player_id = some (pyStr mo.profile_id) := by
    simp [hpo, nativePlayerObj_id]
  have hmodeEq : (parse_native_match raw pm).mode = some "RM 1v1" := by
    rw [parse_native_mode, hmode]
  rcases le_or_lt mu.teamid mo.teamid with hle | hlt
  · rw [if_pos hle] at hteams
    have hfind : findUserInTeams uid rid
        ((parse_native_match raw pm).teams.getD []) = some (0, pu) := by
      rw [hteams]
      simp only [Option.getD_some]
      exact findUser_pair_fst uid rid _ _ pu (by rw [hTu]) hpuid
    constructor
    · simp only [compute_ranked_stats, List.foldl, rankedStep, hmodeEq, hfind]
      rw [hteams]
      simp only [Option.getD_some]
      rw [hTu, hTo]
      simp [List.enum, List.enumFrom]
    · simp only [user_outcome, hfind, Option.map_some]
      rw [hteams]
      simp only [Option.getD_some]
      rw [hTu]
      simp
  · rw [if_neg (not_le.mpr hlt)] at hteams
    have hfind : findUserInTeams uid rid
        ((parse_native_match raw pm).teams.getD []) = some (1, pu) := by
      rw [hteams]
      simp only [Option.getD_some]
      refine findUser_pair_snd uid rid _ _ po pu (by rw [hTo]) (by rw [hTu]) ?_ ?_ hpuid
      · rw [hpoid]; simp [ho1]
      · rw [hpoid]; simp [ho2]
    constructor
    · simp only [compute_ranked_stats, List.foldl, rankedStep, hmodeEq, hfind]
      rw [hteams]
      simp only [Option.getD_some]
      rw [hTu, hTo]
      simp [List.enum, List.enumFrom]
    · simp only [user_outcome, hfind, Option.map_some]
      rw [hteams]
      simp only [Option.getD_some]
      rw [hTu, hTo]
      simp

/-- Witness for C1: the amended theorem applied to `nativeRaw1v1`, whose
target player gained 15 rating points. -/
theorem ranked_native_elo_agreement_witness :
    compute_ranked_stats [parse_native_match nativeRaw1v1 []] "5" "5" =
      ⟨1, if 0 < (1015 : Int) - 1000 then 1 else 0⟩ ∧
    (user_outcome (parse_native_match nativeRaw1v1 []) "5" "5").map Prod.fst =
      some (decide (0 < (1015 : Int) - 1000)) :=
  ranked_native_elo_agreement "5" "5" [] nativeRaw1v1 nativeWinnerMember nativeLoserMember
    1000 1015 rfl (by decide) rfl rfl rfl (by decide) rfl (by decide) (by decide)

/-! ### Association-list lemmas about the dedup dictionaries -/

lemma unique_matches_eq_foldl (ms : List Match) :
    unique_matches ms = ms.foldl saveStep [] := rfl

lemma truthyStr_some {s : String} (h : truthyStr (some s)) : s ≠ "" := by
  simpa [truthyStr] using h

lemma truthyStr_iff (o : Option String) :
    truthyStr o = true ↔ ∃ s, o = some s ∧ s ≠ "" := by
  cases o <;> simp [truthyStr]

lemma find?_dictInsert_self (k : String) (v : Match) (d : List (String × Match)) :
    (dictInsert k v d).find? (fun kv => kv.1 = k) = some (k, v) := by
  induction d with
  | nil => simp [dictInsert, List.find?]
  | cons kv rest ih =>
    obtain ⟨k1, v1⟩ := kv
    by_cases h : k1 = k
    · subst h
      simp [dictInsert, List.find?]
    · simp only [dictInsert, if_neg h, List.find?, decide_eq_false h]
      exact ih

lemma find?_dictInsert_ne (g k : String) (v : Match) (d : List (String × Match))
    (h : g ≠ k) :
    (dictInsert k v d).find? (fun kv => kv.1 = g) = d.find? (fun kv => kv.1 = g) := by
  induction d with
  | nil => simp [dictInsert, List.find?, Ne.symm h]
  | cons kv rest ih =>
    obtain ⟨k1, v1⟩ := kv
    by_cases hk : k1 = k
    · subst hk
      simp only [dictInsert, if_pos rfl, List.find?, decide_eq_false (Ne.symm h)]
    · simp only [dictInsert, if_neg hk, List.find?]
      by_cases hg : k1 = g
      · simp [hg]
      · simp only [decide_eq_false hg]
        exact ih

lemma dictKeys_dictInsert (k : String) (v : Match) (d : List (String × Match)) :
    dictKeys (dictInsert k v d) =
      if k ∈ dictKeys d then dictKeys d else dictKeys d ++ [k] := by
  induction d with
  | nil => simp [dictInsert, dictKeys]
  | cons kv rest ih =>
    obtain ⟨k1, v1⟩ := kv
    by_cases h : k1 = k
    · subst h
      simp [dictInsert, dictKeys]
    · have h1 : dictKeys ((k1, v1) :: rest) = k1 :: dictKeys rest := rfl
      have h2 : dictKeys ((k1, v1) :: dictInsert k v rest) =
          k1 :: dictKeys (dictInsert k v rest) := rfl
      rw [dictInsert, if_neg h, h2, ih, h1]
      by_cases hm : k ∈ dictKeys rest
      · rw [if_pos hm, if_pos (by simp [hm])]
      · rw [if_neg hm, if_neg (by simp [hm]; exact fun hh => h hh.symm),
          List.cons_append]

lemma nodup_dictKeys_dictInsert (k : String) (v : Match) (d : List (String × Match))
    (h : (dictKeys d).Nodup) : (dictKeys (dictInsert k v d)).Nodup := by
  rw [dictKeys_dictInsert]
  by_cases hm : k ∈ dictKeys d
  · simpa [hm] using h
  · rw [if_neg hm]
    refine List.nodup_append.mpr ⟨h, List.nodup_singleton k, ?_⟩
    intro x hx hx'
    simp only [List.mem_singleton] at hx'
    exact hm (hx' ▸ hx)

lemma dictOk_dictInsert (k : String) (v : Match) (d : List (String × Match))
    (hd : dictOk d) (hv : v.game_id = some k) (hk : k ≠ "") :
    dictOk (dictInsert k v d) := by
  induction d with
  | nil =>
    intro kv hkv
    simp only [dictInsert, List.mem_singleton] at hkv
    subst hkv; exact ⟨hv, hk⟩
  | cons kv' rest ih =>
    have hd' : dictOk rest := fun kv h => hd kv (List.mem_cons_of_mem _ h)
    by_cases h : kv'.1 = k
    · intro kv hkv
      rw [dictInsert, if_pos h] at hkv
      rcases List.mem_cons.mp hkv with h' | h'
      · subst h'; exact ⟨h ▸ hv, h ▸ hk⟩
      · exact hd kv (List.mem_cons_of_mem _ h')
    · intro kv hkv
      rw [dictInsert, if_neg h] at hkv
      rcases List.mem_cons.mp hkv with h' | h'
      · subst h'; exact hd kv' (List.mem_cons_self _ _)
      · exact ih hd' kv h'

lemma dictOk_saveStep (d : List (String × Match)) (m : Match) (hd : dictOk d) :
    dictOk (saveStep d m) := by
  rw [saveStep]
  by_cases ht : truthyStr m.game_id
  · rw [if_pos ht]
    obtain ⟨s, hs, hs'⟩ := (truthyStr_iff m.game_id).mp ht
    rw [hs]
    exact dictOk_dictInsert s m d hd hs hs'
  · rwa [if_neg ht]

lemma dictOk_foldl (ms : List Match) : ∀ d, dictOk d → dictOk (ms.foldl saveStep d) := by
  induction ms with
  | nil => intro d hd; exact hd
  | cons m ms ih =>
    intro d hd
    rw [List.foldl_cons]
    exact ih _ (dictOk_saveStep d m hd)

lemma nodup_keys_saveStep (d : List (String × Match)) (m : Match)
    (hd : (dictKeys d).Nodup) : (dictKeys (saveStep d m)).Nodup := by
  rw [saveStep]
  by_cases ht : truthyStr m.game_id
  · rw [if_pos ht]; exact nodup_dictKeys_dictInsert _ _ _ hd
  · rwa [if_neg ht]

lemma nodup_keys_foldl (ms : List Match) :
    ∀ d, (dictKeys d).Nodup → (dictKeys (ms.foldl saveStep d)).Nodup := by
  induction ms with
  | nil => intro d hd; exact hd
  | cons m ms ih =>
    intro d hd
    rw [List.foldl_cons]
    exact ih _ (nodup_keys_saveStep d m hd)

lemma dLookup_saveStep (d : List (String × Match)) (m : Match) (g : String) (hg : g ≠ "") :
    dLookup g (saveStep d m) =
      if m.game_id = some g then some m else dLookup g d := by
  rw [saveStep]
  by_cases ht : truthyStr m.game_id
  · rw [if_pos ht]
    obtain ⟨s, hs, hs'⟩ := (truthyStr_iff m.game_id).mp ht
    by_cases he : m.game_id = some g
    · rw [if_pos he, dLookup]
      have hsg : m.game_id.getD "" = g := by rw [he]; rfl
      rw [hsg, find?_dictInsert_self]
      rfl
    · rw [if_neg he, dLookup, dLookup, hs]
      have hne : s ≠ g := fun h => he (by rw [hs, h])
      exact congrArg (Option.map Prod.snd)
        (find?_dictInsert_ne g s m d (Ne.symm hne))
  · rw [if_neg ht]
    have : ¬ m.game_id = some g := by
      intro h
      rw [h] at ht
      exact ht (by simpa [truthyStr] using hg)
    rw [if_neg this]

lemma dLookup_foldl (g : String) (hg : g ≠ "") (ms : List Match) :
    ∀ d, dLookup g (ms.foldl saveStep d) =
      ((ms.reverse.find? (fun m => m.game_id = some g)).or (dLookup g d)) := by
  induction ms with
  | nil => intro d; simp
  | cons m ms ih =>
    intro d
    rw [List.foldl_cons, ih, List.reverse_cons, List.find?_append,
      dLookup_saveStep d m g hg]
    by_cases he : m.game_id = some g
    · simp [List.find?, he, Option.or_assoc]
    · simp [List.find?, he]

lemma countP_values_zero (d : List (String × Match)) (hok : dictOk d) (g : String)
    (hgk : g ∉ dictKeys d) :
    (d.map Prod.snd).countP (fun m => m.game_id = some g) = 0 := by
  induction d with
  | nil => rfl
  | cons kv rest ih =>
    have h1 := hok kv (List.mem_cons_self _ _)
    have hok' : dictOk rest := fun kv h => hok kv (List.mem_cons_of_mem _ h)
    have hne : kv.1 ≠ g := by
      intro h
      exact hgk (by rw [dictKeys, List.map_cons, h]; exact List.mem_cons_self _ _)
    have hgk' : g ∉ dictKeys rest := fun h =>
      hgk (by rw [dictKeys, List.map_cons]; exact List.mem_cons_of_mem _ h)
    rw [List.map_cons, List.countP_cons, ih hok' hgk']
    have : ¬ kv.2.game_id = some g := by
      rw [h1.1]
      simpa using hne
    simp [this]

lemma countP_values (d : List (String × Match)) (hok : dictOk d)
    (hnd : (dictKeys d).Nodup) (g : String) :
    (d.map Prod.snd).countP (fun m => m.game_id = some g) =
      if g ∈ dictKeys d then 1 else 0 := by
  induction d with
  | nil => rfl
  | cons kv rest ih =>
    have h1 := hok kv (List.mem_cons_self _ _)
    have hok' : dictOk rest := fun kv h => hok kv (List.mem_cons_of_mem _ h)
    have hkeys : dictKeys (kv :: rest) = kv.1 :: dictKeys rest := rfl
    rw [hkeys] at hnd ⊢
    have hnotin : kv.1 ∉ dictKeys rest := (List.nodup_cons.mp hnd).1
    have hnd' : (dictKeys rest).Nodup := (List.nodup_cons.mp hnd).2
    rw [List.map_cons, List.countP_cons, ih hok' hnd']
    by_cases hg : kv.1 = g
    · subst hg
      rw [if_neg hnotin, if_pos (List.mem_cons_self _ _)]
      simp [h1.1]
    · have hne2 : ¬ kv.2.game_id = some g := by
        rw [h1.1]; simpa using hg
      have hiff : (g ∈ kv.1 :: dictKeys rest) ↔ g ∈ dictKeys rest := by
        rw [List.mem_cons]
        exact or_iff_right (fun h => hg h.symm)
      rw [if_congr hiff rfl rfl]
      simp [hne2]

lemma dLookup_isSome_iff_mem (d : List (String × Match)) (g : String) :
    (dLookup g d).isSome = true ↔ g ∈ dictKeys d := by
  rw [dLookup, Option.isSome_map', List.find?_isSome]
  constructor
  · rintro ⟨kv, hkv, hp⟩
    have : kv.1 = g := by simpa using hp
    exact this ▸ List.mem_map_of_mem Prod.fst hkv
  · intro h
    obtain ⟨kv, hkv, rfl⟩ := List.mem_map.mp h
    exact ⟨kv, hkv, by simp⟩

lemma mem_values_dLookup (d : List (String × Match)) (hok : dictOk d)
    (hnd : (dictKeys d).Nodup) (m : Match) (g : String)
    (hm : m ∈ d.map Prod.snd) (hgid : m.game_id = some g) :
    dLookup g d = some m := by
  induction d with
  | nil => cases hm
  | cons kv rest ih =>
    have h1 := hok kv (List.mem_cons_self _ _)
    have hok' : dictOk rest := fun kv h => hok kv (List.mem_cons_of_mem _ h)
    have hkeys : dictKeys (kv :: rest) = kv.1 :: dictKeys rest := rfl
    rw [hkeys] at hnd
    have hnotin : kv.1 ∉ dictKeys rest := (List.nodup_cons.mp hnd).1
    have hnd' : (dictKeys rest).Nodup := (List.nodup_cons.mp hnd).2
    rw [List.map_cons] at hm
    rcases List.mem_cons.mp hm with h | h
    · subst h
      have hkg : kv.1 = g := by
        rw [h1.1] at hgid
        simpa using hgid
      rw [dLookup, List.find?]
      simp [hkg]
    · have hrec := ih hok' hnd' h
      have hgmem : g ∈ dictKeys rest :=
        (dLookup_isSome_iff_mem rest g).mp (by rw [hrec]; rfl)
      have hkg : ¬ kv.1 = g := fun hh => hnotin (hh ▸ hgmem)
      rw [dLookup, List.find?]
      simp only [decide_eq_false hkg]
      exact hrec

lemma dictInsert_fresh (k : String) (v : Match) (d : List (String × Match))
    (h : k ∉ dictKeys d) : dictInsert k v d = d ++ [(k, v)] := by
  induction d with
  | nil => rfl
  | cons kv rest ih =>
    have hne : ¬ kv.1 = k := by
      intro hh
      exact h (by rw [dictKeys, List.map_cons, hh]; exact List.mem_cons_self _ _)
    have h' : k ∉ dictKeys rest := fun hh =>
      h (by rw [dictKeys, List.map_cons]; exact List.mem_cons_of_mem _ hh)
    rw [dictInsert, if_neg hne, ih h', List.cons_append]

lemma foldl_saveStep_fresh : ∀ (c : List Match) (acc : List (String × Match)),
    (∀ m ∈ c, truthyStr m.game_id) →
    (dictKeys acc ++ c.map (fun m => m.game_id.getD "")).Nodup →
    c.foldl saveStep acc = acc ++ c.map (fun m => (m.game_id.getD "", m)) := by
  intro c
  induction c with
  | nil => intro acc _ _; simp
  | cons m c ih =>
    intro acc htr hnd
    have htm : truthyStr m.game_id := htr m (List.mem_cons_self _ _)
    have htr' : ∀ m' ∈ c, truthyStr m'.game_id :=
      fun m' h => htr m' (List.mem_cons_of_mem _ h)
    rw [List.map_cons] at hnd
    have hfresh : m.game_id.getD "" ∉ dictKeys acc := by
      have hd := List.nodup_append.mp hnd
      intro hmem
      exact (hd.2.2 hmem (List.mem_cons_self _ _))
    rw [List.foldl_cons, saveStep, if_pos htm, dictInsert_fresh _ _ _ hfresh,
      ih (acc ++ [(m.game_id.getD "", m)]) htr' ?_]
    · rw [List.map_cons, List.append_assoc, List.singleton_append]
    · have : dictKeys (acc ++ [(m.game_id.getD "", m)]) = dictKeys acc ++ [m.game_id.getD ""] := by
        rw [dictKeys, List.map_append]; rfl
      rw [this, List.append_assoc, List.singleton_append]
      exact hnd

lemma unique_matches_fresh (c : List Match)
    (ht : ∀ m ∈ c, truthyStr m.game_id)
    (hnd : (c.map (fun m => m.game_id.getD "")).Nodup) :
    (unique_matches c).map Prod.snd = c := by
  rw [unique_matches_eq_foldl, foldl_saveStep_fresh c [] ht (by simpa [dictKeys] using hnd)]
  rw [List.nil_append, List.map_map]
  exact (List.map_congr_left (fun m _ => rfl)).trans (List.map_id c)

lemma unique_matches_values (d : List (String × Match)) (hok : dictOk d)
    (hnd : (dictKeys d).Nodup) :
    unique_matches (d.map Prod.snd) = d := by
  have hmapkeys : (d.map Prod.snd).map (fun m => m.game_id.getD "") = dictKeys d := by
    rw [List.map_map, dictKeys]
    refine List.map_congr_left ?_
    intro kv hkv
    rw [Function.comp_apply, (hok kv hkv).1]
    rfl
  rw [unique_matches_eq_foldl,
    foldl_saveStep_fresh (d.map Prod.snd) []
      (fun m hm => by
        obtain ⟨kv, hkv, rfl⟩ := List.mem_map.mp hm
        rw [truthyStr_iff]
        exact ⟨kv.1, (hok kv hkv).1, (hok kv hkv).2⟩)
      (by simpa [dictKeys, hmapkeys] using hnd)]
  rw [List.nil_append, List.map_map]
  refine List.map_congr_left ?_ |>.trans (List.map_id d)
  intro kv hkv
  rw [Function.comp_apply, (hok kv hkv).1]
  rfl

lemma foldl_rawStep_eq (l : List Match) : ∀ acc,
    (∀ m ∈ l, truthyStr m.game_id) →
    l.foldl (fun d m => dictInsert (m.game_id.getD "") m d) acc = l.foldl saveStep acc := by
  induction l with
  | nil => intro acc _; rfl
  | cons m l ih =>
    intro acc ht
    rw [List.foldl_cons, List.foldl_cons, saveStep, if_pos (ht m (List.mem_cons_self _ _))]
    exact ih _ (fun m' h => ht m' (List.mem_cons_of_mem _ h))

/-- C3: after `save_matches`, each truthy `game_id` occurs exactly once (once
iff it occurred in the input), the stored entry is the last input entry with
that `game_id`, and merging cached matches with newly fetched ones through
the `refresh_matches` dictionary is the same as saving the concatenation
`cached ++ new` — so the newly fetched copy wins. -/
theorem save_matches_dedup_last_wins (ms : List Match) (g : String) (hg : g ≠ "") :
    ((save_matches ms).countP (fun m => m.game_id = some g) =
      if ms.any (fun m => m.game_id = some g) then 1 else 0) ∧
    (∀ m ∈ save_matches ms, m.game_id = some g →
      ms.reverse.find? (fun m' => m'.game_id = some g) = some m) ∧
    (∀ cached new : List Match, (∀ m ∈ cached ++ new, truthyStr m.game_id) →
      save_matches (refreshMerge cached new) = save_matches (cached ++ new)) := by
  have hok : dictOk (unique_matches ms) := by
    rw [unique_matches_eq_foldl]
    exact dictOk_foldl ms [] (fun kv h => by cases h)
  have hnd : (dictKeys (unique_matches ms)).Nodup := by
    rw [unique_matches_eq_foldl]
    exact nodup_keys_foldl ms [] List.nodup_nil
  have hlook : dLookup g (unique_matches ms) =
      ms.reverse.find? (fun m' => m'.game_id = some g) := by
    rw [unique_matches_eq_foldl, dLookup_foldl g hg ms []]
    cases ms.reverse.find? (fun m' => m'.game_id = some g) <;> rfl
  refine ⟨?_, ?_, ?_⟩
  · rw [save_matches,
      (List.perm_insertionSort sortLe ((unique_matches ms).map Prod.snd)).countP_eq,
      countP_values _ hok hnd g]
    refine if_congr ?_ rfl rfl
    rw [← dLookup_isSome_iff_mem, hlook, List.find?_isSome]
    constructor
    · rintro ⟨m, hm, hp⟩
      exact List.any_eq_true.mpr ⟨m, List.mem_reverse.mp hm, hp⟩
    · intro h
      obtain ⟨m, hm, hp⟩ := List.any_eq_true.mp h
      exact ⟨m, List.mem_reverse.mpr hm, hp⟩
  · intro m hm hgid
    have hm2 : m ∈ (unique_matches ms).map Prod.snd :=
      (List.mem_insertionSort sortLe).mp hm
    rw [← hlook]
    exact mem_values_dLookup _ hok hnd m g hm2 hgid
  · intro cached new ht
    have h1 : refreshMerge cached new =
        (unique_matches (cached ++ new)).map Prod.snd := by
      rw [refreshMerge, foldl_rawStep_eq _ [] ht, unique_matches_eq_foldl]
    have hok2 : dictOk (unique_matches (cached ++ new)) := by
      rw [unique_matches_eq_foldl]
      exact dictOk_foldl _ [] (fun kv h => by cases h)
    have hnd2 : (dictKeys (unique_matches (cached ++ new))).Nodup := by
      rw [unique_matches_eq_foldl]
      exact nodup_keys_foldl _ [] List.nodup_nil
    rw [h1, save_matches, save_matches, unique_matches_values _ hok2 hnd2]

/-- Witness for C3: the theorem applied to a two-entry list sharing
`game_id = "1"`, whose second (later, fresher) copy is the one stored. -/
theorem save_matches_dedup_last_wins_witness :
    ((save_matches [{ game_id := some "1", mode := some "a" },
                    { game_id := some "1", mode := some "b" }]).countP
        (fun m => m.game_id = some "1") =
      if ([{ game_id := some "1", mode := some "a" },
           { game_id := some "1", mode := some "b" }] : List Match).any
          (fun m => m.game_id = some "1") then 1 else 0) ∧
    (∀ m ∈ save_matches [{ game_id := some "1", mode := some "a" },
                         { game_id := some "1", mode := some "b" }],
      m.game_id = some "1" →
      ([{ game_id := some "1", mode := some "a" },
        { game_id := some "1", mode := some "b" }] : List Match).reverse.find?
          (fun m' => m'.game_id = some "1") = some m) ∧
    (∀ cached new : List Match, (∀ m ∈ cached ++ new, truthyStr m.game_id) →
      save_matches (refreshMerge cached new) = save_matches (cached ++ new)) :=
  save_matches_dedup_last_wins
    [{ game_id := some "1", mode := some "a" }, { game_id := some "1", mode := some "b" }]
    "1" (by decide)

/-- The filter of entries at one sort key passes through `orderedInsert`. -/
lemma filter_orderedInsert (k : Nat) (a : Match) (l : List Match) :
    (List.orderedInsert sortLe a l).filter (fun m => (match_sort_key m).key = k) =
      if (match_sort_key a).key = k then
        a :: l.filter (fun m => (match_sort_key m).key = k)
      else l.filter (fun m => (match_sort_key m).key = k) := by
  induction l with
  | nil =>
    by_cases hp : (match_sort_key a).key = k <;>
      simp [List.orderedInsert, List.filter, hp]
  | cons b l ih =>
    rw [List.orderedInsert]
    by_cases hle : sortLe a b
    · rw [if_pos hle]
      by_cases hp : (match_sort_key a).key = k <;> simp [List.filter, hp]
    · rw [if_neg hle]
      have hkb : (match_sort_key b).key < (match_sort_key a).key :=
        Nat.lt_of_not_le hle
      by_cases hp : (match_sort_key a).key = k
      · have hpb : ¬ (match_sort_key b).key = k := by
          rw [← hp]; exact Nat.ne_of_lt hkb
        simp [List.filter, hpb, ih, hp]
      · by_cases hpb : (match_sort_key b).key = k <;>
          simp [List.filter, hpb, ih, hp]

/-- Stability of the insertion sort used by `save_matches`: the entries at
each sort key keep their relative order. -/
lemma filter_insertionSort (k : Nat) (l : List Match) :
    (List.insertionSort sortLe l).filter (fun m => (match_sort_key m).key = k) =
      l.filter (fun m => (match_sort_key m).key = k) := by
  induction l with
  | nil => rfl
  | cons a l ih =>
    rw [List.insertionSort, filter_orderedInsert, ih]
    by_cases hp : (match_sort_key a).key = k <;> simp [List.filter, hp]

/-- C4: every list written by `save_matches` is sorted ascending by
`match_sort_key` — for all adjacent pairs the key of the earlier entry is at
most the key of the later one — and entries with equal keys keep the relative
order they had after deduplication (the sort is stable). -/
theorem save_matches_sorted_stable (ms : List Match) :
    List.Chain' sortLe (save_matches ms) ∧
    ∀ k : Nat, (save_matches ms).filter (fun m => (match_sort_key m).key = k) =
      ((unique_matches ms).map Prod.snd).filter (fun m => (match_sort_key m).key = k) := by
  constructor
  · exact (List.sorted_insertionSort sortLe _).chain'
  · intro k
    exact filter_insertionSort k _

/-- C6 as stated is false: a store just written by `save_matches` after a
native fetch carries player-level `won` fields, which `normalize_match`
drops; the next sync (load then save, nothing new fetched) therefore rewrites
the file. -/
theorem resync_changes_native_store :
    resync (save_matches [parse_native_match nativeRaw1v1 []]) ≠
      save_matches [parse_native_match nativeRaw1v1 []] := by decide

/-- C6 amended: load-then-save is the identity on stores whose entries are
normal forms (fixpoints of `normalize_match` with truthy ids), have pairwise
distinct `game_id`s and are sorted by `match_sort_key`; every store that has
already been through one load/save round trip of normal-form data has this
shape, so from the second no-new-data sync onwards the file is byte-for-byte
stable, but the first sync after a native fetch rewrites it (see the
counterexample). -/
theorem resync_fixpoint_of_normalized (c : List Match)
    (hnorm : ∀ m ∈ c, normalize_match m = m)
    (ht : ∀ m ∈ c, truthyStr m.game_id)
    (hnd : (c.map (fun m => m.game_id.getD "")).Nodup)
    (hsort : List.Sorted sortLe c) :
    resync c = c := by
  have hcomp : normalizeItem ∘ JsonItem.jmatch = fun m => some (normalize_match m) := rfl
  have hload : loadList (c.map JsonItem.jmatch) = c := by
    rw [loadList, List.filterMap_map, hcomp,
      show (fun m => some (normalize_match m)) = some ∘ normalize_match from rfl,
      List.filterMap_eq_map]
    rw [(List.map_congr_left hnorm).trans (List.map_id c)]
    exact List.filter_eq_self.mpr ht
  rw [resync, hload, save_matches, unique_matches_fresh c ht hnd]
  exact hsort.insertionSort_eq

/-- Witness for C6: the amended theorem applied to the singleton normal-form
store `[normalStoredMatch]`. -/
theorem resync_fixpoint_witness : resync [normalStoredMatch] = [normalStoredMatch] :=
  resync_fixpoint_of_normalized [normalStoredMatch] (by decide) (by decide) (by decide)
    (List.sorted_singleton _)

lemma sessGo_flatten (idle : Nat) :
    ∀ (rest current : List Entry) (lastEnd : DateTime),
    (sessGo idle rest current lastEnd).flatten = current ++ rest := by
  intro rest
  induction rest with
  | nil =>
    intro current lastEnd
    rw [sessGo]
    by_cases h : current.isEmpty
    · rw [if_pos h, List.isEmpty_iff.mp h]
      rfl
    · rw [if_neg h]
      simp
  | cons e rest ih =>
    intro current lastEnd
    rw [sessGo]
    by_cases hgap : gapExceeds idle lastEnd e.ts
    · rw [if_pos hgap]
      by_cases h : current.isEmpty
      · rw [if_pos h, List.isEmpty_iff.mp h]
        simpa using ih [e] e.end_ts
      · rw [if_neg h]
        simp [ih [e] e.end_ts]
    · rw [if_neg (by simpa using hgap)]
      rw [ih (current ++ [e]) e.end_ts]
      simp
  
lemma sessGo_sessions_ne_nil (idle : Nat) :
    ∀ (rest current : List Entry) (lastEnd : DateTime), current ≠ [] →
    ∀ s ∈ sessGo idle rest current lastEnd, s ≠ [] := by
  intro rest
  induction rest with
  | nil =>
    intro current lastEnd hc s hs
    rw [sessGo, if_neg (by simpa using hc)] at hs
    rcases List.mem_singleton.mp hs with rfl
    exact hc
  | cons e rest ih =>
    intro current lastEnd hc s hs
    rw [sessGo] at hs
    by_cases hgap : gapExceeds idle lastEnd e.ts
    · rw [if_pos hgap, if_neg (by simpa using hc), List.singleton_append] at hs
      rcases List.mem_cons.mp hs with rfl | hs'
      · exact hc
      · exact ih [e] e.end_ts (by simp) s hs'
    · rw [if_neg (by simpa using hgap)] at hs
      exact ih (current ++ [e]) e.end_ts (by simp) s hs

lemma sessGo_ne_nil (idle : Nat) :
    ∀ (rest current : List Entry) (lastEnd : DateTime), current ≠ [] →
    sessGo idle rest current lastEnd ≠ [] := by
  intro rest
  induction rest with
  | nil =>
    intro current lastEnd hc
    rw [sessGo, if_neg (by simpa using hc)]
    simp
  | cons e rest ih =>
    intro current lastEnd hc
    rw [sessGo]
    by_cases hgap : gapExceeds idle lastEnd e.ts
    · rw [if_pos hgap]
      intro habs
      rcases List.append_eq_nil.mp habs with ⟨_, h2⟩
      exact ih [e] e.end_ts (by simp) h2
    · rw [if_neg (by simpa using hgap)]
      exact ih (current ++ [e]) e.end_ts (by simp)

lemma sessGo_chains (idle : Nat) :
    ∀ (rest current : List Entry) (lastEnd : DateTime),
    current ≠ [] →
    List.Chain' (intraOk idle) current →
    (∀ a, current.getLast? = some a → a.end_ts = lastEnd) →
    (∀ s ∈ sessGo idle rest current lastEnd, List.Chain' (intraOk idle) s) ∧
    List.Chain' (interSplit idle) (sessGo idle rest current lastEnd) ∧
    (sessGo idle rest current lastEnd).head?.bind List.head? = current.head? := by
  intro rest
  induction rest with
  | nil =>
    intro current lastEnd hc hchain _
    rw [sessGo, if_neg (by simpa using hc)]
    refine ⟨?_, List.chain'_singleton _, ?_⟩
    · intro s hs
      rcases List.mem_singleton.mp hs with rfl
      exact hchain
    · simp
  | cons e rest ih =>
    intro current lastEnd hc hchain hlast
    rw [sessGo]
    by_cases hgap : gapExceeds idle lastEnd e.ts
    · rw [if_pos hgap, if_neg (by simpa using hc), List.singleton_append]
      obtain ⟨ih1, ih2, ih3⟩ := ih [e] e.end_ts (by simp) (List.chain'_singleton e)
        (by intro a ha; simp at ha; rw [ha])
      refine ⟨?_, ?_, ?_⟩
      · intro s hs
        rcases List.mem_cons.mp hs with rfl | hs'
        · exact hchain
        · exact ih1 s hs'
      · rw [List.chain'_cons']
        refine ⟨?_, ih2⟩
        intro t ht a ha b hb
        have hres := sessGo_ne_nil idle rest [e] e.end_ts (by simp)
        rcases hr : sessGo idle rest [e] e.end_ts with _ | ⟨s0, res'⟩
        · exact absurd hr hres
        · rw [hr] at ht ih3
          have hts : t = s0 := by
            have := Option.mem_def.mp ht
            simpa [eq_comm] using this
          subst hts
          simp only [List.head?_cons, Option.some_bind] at ih3
          rw [ih3] at hb
          simp only [List.head?_cons, Option.some.injEq] at hb
          subst hb
          rw [hlast a ha]
          exact hgap
      · simp
    · rw [if_neg (by simpa using hgap)]
      have hc' : current ++ [e] ≠ [] := by simp
      have hchain' : List.Chain' (intraOk idle) (current ++ [e]) := by
        rw [List.chain'_append]
        refine ⟨hchain, List.chain'_singleton e, ?_⟩
        intro a ha b hb
        simp only [List.head?_cons, Option.mem_def, Option.some.injEq] at hb
        subst hb
        rw [intraOk, hlast a ha]
        simpa using hgap
      have hlast' : ∀ a, (current ++ [e]).getLast? = some a → a.end_ts = e.end_ts := by
        intro a ha
        rw [List.getLast?_append_cons] at ha
        simp at ha
        rw [ha]
      obtain ⟨ih1, ih2, ih3⟩ := ih (current ++ [e]) e.end_ts hc' hchain' hlast'
      refine ⟨ih1, ih2, ?_⟩
      rw [ih3]
      cases current with
      | nil => exact absurd rfl hc
      | cons x xs => simp

lemma getLast_singleton_end (e : Entry) :
    ∀ a : Entry, ([e].getLast? = some a) → a.end_ts = e.end_ts := by
  intro a ha
  have : e = a := by simpa using ha
  rw [← this]

/-- C10: `group_sessions` partitions its input: concatenating the sessions in
order gives exactly the input sorted ascending by start time (hence a
permutation of the input — each entry lands in exactly one session), and no
session is empty. -/
theorem group_sessions_partition (l : List Entry) (idle : Nat) :
    (group_sessions l idle).flatten = List.insertionSort entryLe l ∧
    List.Perm (group_sessions l idle).flatten l ∧
    (∀ s ∈ group_sessions l idle, s ≠ []) ∧
    List.Sorted entryLe (List.insertionSort entryLe l) := by
  have hperm := List.perm_insertionSort entryLe l
  have hsorted := List.sorted_insertionSort entryLe l
  rcases h : List.insertionSort entryLe l with _ | ⟨e, rest⟩
  · have hgroup : group_sessions l idle = [] := by rw [group_sessions, h]
    rw [h] at hperm hsorted
    refine ⟨?_, ?_, ?_, hsorted⟩
    · rw [hgroup]; rfl
    · rw [hgroup]; exact hperm
    · rw [hgroup]; intro s hs; cases hs
  · have hgroup : group_sessions l idle = sessGo idle rest [e] e.end_ts := by
      rw [group_sessions, h]
    have hflat : (group_sessions l idle).flatten = e :: rest := by
      rw [hgroup, sessGo_flatten idle rest [e] e.end_ts]; rfl
    rw [h] at hperm hsorted
    refine ⟨?_, ?_, ?_, hsorted⟩
    · rw [hflat]
    · rw [hflat]; exact hperm
    · rw [hgroup]
      exact sessGo_sessions_ne_nil idle rest [e] e.end_ts (by simp)

/-- C5: `group_sessions` sorts ascending by start time, then opens a new
session exactly when the idle gap (current start minus previous end, in
minutes) strictly exceeds the threshold: within every emitted session no
adjacent gap exceeds it, and at every boundary between consecutive sessions
the gap does exceed it (the first sorted entry always opens the first
session; with C10's partition property this pins the segmentation down).  The
minute-offset scenario `[0, 10, 40, 45]` with threshold 20 yields exactly the
sessions `[0, 10]` and `[40, 45]`. -/
theorem group_sessions_gap_rule (l : List Entry) (idle : Nat) :
    (∀ s ∈ group_sessions l idle, List.Chain' (intraOk idle) s) ∧
    List.Chain' (interSplit idle) (group_sessions l idle) ∧
    (group_sessions l idle).flatten = List.insertionSort entryLe l ∧
    group_sessions [exEntry 0, exEntry 10, exEntry 40, exEntry 45] 20 =
      [[exEntry 0, exEntry 10], [exEntry 40, exEntry 45]] := by
  have hexample : group_sessions [exEntry 0, exEntry 10, exEntry 40, exEntry 45] 20 =
      [[exEntry 0, exEntry 10], [exEntry 40, exEntry 45]] := by decide
  rcases h : List.insertionSort entryLe l with _ | ⟨e, rest⟩
  · have hgroup : group_sessions l idle = [] := by rw [group_sessions, h]
    refine ⟨?_, ?_, ?_, hexample⟩
    · rw [hgroup]; intro s hs; cases hs
    · rw [hgroup]; exact List.chain'_nil
    · rw [hgroup]; rfl
  · have hgroup : group_sessions l idle = sessGo idle rest [e] e.end_ts := by
      rw [group_sessions, h]
    obtain ⟨h1, h2, _⟩ := sessGo_chains idle rest [e] e.end_ts (by simp)
      (List.chain'_singleton e) (getLast_singleton_end e)
    refine ⟨?_, ?_, ?_, hexample⟩
    · rw [hgroup]; exact h1
    · rw [hgroup]; exact h2
    · rw [hgroup, sessGo_flatten idle rest [e] e.end_ts]; rfl

end Aoe2
